import Mathlib

/-!
Verification development for the conditional (multinomial) logit training
pipeline of `backend/train.py`.

Conventions of the embedding:
* Python strings are modelled as `List Char`; pandas string normalization
  (`.str.strip().str.lower()`) is `normStr`.
* Coerced numeric columns (`pd.to_numeric(..., errors = coerce)`) are
  modelled as `Option ℚ`: `none` is the missing-value marker (NaN).
* Floating-point model arithmetic (utilities, softmax, scaling, likelihood)
  is modelled over `ℝ`.
* Python exceptions escaping a function are modelled by `Except String`;
  `Except.error` is an uncaught exception / hard failure.
-/

namespace Train

def strL (s : String) : List Char := s.data

/-- Python `str.strip()`: drop leading and trailing whitespace. -/
def trimL (l : List Char) : List Char :=
  ((l.dropWhile Char.isWhitespace).reverse.dropWhile Char.isWhitespace).reverse

/-- pandas `.str.strip().str.lower()` normalization (train.py lines 106-107). -/
def normStr (l : List Char) : List Char :=
  (trimL l).map Char.toLower

/-- Digits of a Python integer literal; `none` when empty or a non-digit occurs. -/
def digitsToNat (l : List Char) : Option ℕ :=
  if l = [] then none
  else l.foldlM (fun acc c => if c.isDigit then some (acc * 10 + (c.toNat - 48)) else none) 0

/-- Python `int(s)` on an already stripped string: optional sign then digits,
`none` when the call would raise `ValueError`. -/
def pyInt? (l : List Char) : Option ℤ :=
  match l with
  | '-' :: rest => (digitsToNat rest).map (fun n => -(n : ℤ))
  | '+' :: rest => (digitsToNat rest).map (fun n => (n : ℤ))
  | _ => (digitsToNat l).map (fun n => (n : ℤ))

/-- Python `s.replace("choice", "")`: remove every (left-to-right,
non-overlapping) occurrence of the substring `choice`. -/
def stripChoiceAll : List Char → List Char
  | 'c' :: 'h' :: 'o' :: 'i' :: 'c' :: 'e' :: rest => stripChoiceAll rest
  | c :: rest => c :: stripChoiceAll rest
  | [] => []

/-- Python `s.startswith("choice")`. -/
def startsWithChoice (l : List Char) : Bool :=
  l.take 6 == strL "choice"

/-- Parsing of the `choice` column (train.py lines 63-74).
`choice_str = str(row[choice]).strip()`; a token starting with `choice`
goes through `int(choice_str.replace("choice", ""))` with NO exception
handler (an unparseable remainder raises, line 67); otherwise a bare
`int(choice_str)` is attempted and a failure falls back to alternative 1
with a printed warning (lines 70-74). -/
def parse_choice (s : List Char) : Except String ℤ :=
  let t := trimL s
  if startsWithChoice t then
    match pyInt? (stripChoiceAll t) with
    | some n => .ok n
    | none => .error "ValueError: invalid literal for int"
  else
    match pyInt? t with
    | some n => .ok n
    | none => .ok 1

/-- The per-alternative wide columns `type{i}`, `fuel{i}`, `price{i}`,
`speed{i}`, `pollution{i}`, `size{i}` of one alternative `i`.  Numeric
entries are the result of `pd.to_numeric(..., errors = coerce)`:
`none` is NaN (missing or unparseable). -/
structure AltCols where
  type : List Char
  fuel : List Char
  price : Option ℚ
  speed : Option ℚ
  pollution : Option ℚ
  size : Option ℚ
deriving DecidableEq

/-- One wide-format row: one choice set with its 6 alternatives, the raw
`choice` token, and the choice-set level demographics (train.py lines 30-57;
`row.get(college, 0)` defaults are applied upstream of this record). -/
structure WideRow where
  choice : List Char
  a1 : AltCols
  a2 : AltCols
  a3 : AltCols
  a4 : AltCols
  a5 : AltCols
  a6 : AltCols
  college : Option ℚ
  hsg2 : Option ℚ
  coml5 : Option ℚ
deriving DecidableEq

/-- Column lookup `row[f"type{alt}"]` etc. for `alt` in 1..6. -/
def WideRow.alt (r : WideRow) : ℕ → AltCols
  | 1 => r.a1
  | 2 => r.a2
  | 3 => r.a3
  | 4 => r.a4
  | 5 => r.a5
  | _ => r.a6

/-- One long-format row, one per (choice set, alternative)
(train.py lines 94-101), with `type`/`fuel` already normalized
(lines 106-107) and numerics already coerced (lines 110-112). -/
structure LongRow where
  choice_set_id : ℕ
  alternative_id : ℕ
  choice : ℕ
  type : List Char
  fuel : List Char
  price : Option ℚ
  speed : Option ℚ
  pollution : Option ℚ
  size : Option ℚ
  college : Option ℚ
  hsg2 : Option ℚ
  coml5 : Option ℚ
deriving DecidableEq

/-- Effectful `map` over `Except`, mirroring a Python loop that may raise. -/
def mapE (f : α → Except String β) : List α → Except String (List β)
  | [] => .ok []
  | a :: l => do
    let b ← f a
    let bs ← mapE f l
    pure (b :: bs)

/-- The 6 long rows emitted for wide row number `idx` once the chosen
alternative is known (train.py lines 76-92), with `choice = 1` exactly on
the chosen position, strings normalized and numerics coerced. -/
def longBlock (idx : ℕ) (r : WideRow) (chosen : ℤ) : List LongRow :=
  (List.range 6).map (fun k =>
    let alt := k + 1
    let a := r.alt alt
    { choice_set_id := idx
      alternative_id := alt
      choice := if (alt : ℤ) = chosen then 1 else 0
      type := normStr a.type
      fuel := normStr a.fuel
      price := a.price
      speed := a.speed
      pollution := a.pollution
      size := a.size
      college := r.college
      hsg2 := r.hsg2
      coml5 := r.coml5 })

/-- The 6 long rows generated for wide row number `idx`
(train.py lines 60-92): parse the chosen alternative, then emit one row per
alternative with `choice = 1` exactly on the chosen one. -/
def rowToLong (idx : ℕ) (r : WideRow) : Except String (List LongRow) := do
  let chosen ← parse_choice r.choice
  pure (longBlock idx r chosen)

/-- `df.iterrows()` with running index, concatenating the per-row blocks. -/
def buildLongAux : ℕ → List WideRow → Except String (List LongRow)
  | _, [] => .ok []
  | idx, r :: rest => do
    let block ← rowToLong idx r
    let tail ← buildLongAux (idx + 1) rest
    pure (block ++ tail)

/-- The long table before NaN dropping and validation (train.py lines 59-112). -/
def buildLong (df : List WideRow) : Except String (List LongRow) :=
  buildLongAux 0 df

/-- `long_df[numeric_cols].isna().any(axis=1)` for one row: any of the seven
coerced numeric columns is NaN (train.py lines 110-116). -/
def rowHasNan (r : LongRow) : Bool :=
  r.price.isNone || r.speed.isNone || r.pollution.isNone || r.size.isNone ||
    r.college.isNone || r.hsg2.isNone || r.coml5.isNone

/-- The `choice_set_id`s with some NaN numeric (train.py line 117). -/
def invalidIds (rows : List LongRow) : List ℕ :=
  (rows.filter rowHasNan).map (fun r => r.choice_set_id)

/-- Drop every row of every choice set that has any NaN numeric anywhere
(train.py line 120): wholesale removal by `choice_set_id`. -/
def dropInvalid (rows : List LongRow) : List LongRow :=
  rows.filter (fun r => !((invalidIds rows).contains r.choice_set_id))

/-- All rows of one choice set, in table order (`groupby(choice_set_id)`). -/
def groupRows (rows : List LongRow) (id : ℕ) : List LongRow :=
  rows.filter (fun r => r.choice_set_id == id)

/-- The distinct `choice_set_id`s in ascending order (pandas `groupby`
iterates group keys sorted). -/
def groupIds (rows : List LongRow) : List ℕ :=
  (List.insertionSort (fun a b => a ≤ b) (rows.map (fun r => r.choice_set_id))).dedup

/-- `reshape_to_long_format` (train.py lines 30-134): build the long table
(raising on a malformed prefixed `choice` token), drop every choice set with
a NaN numeric, then hard-fail unless every surviving choice set has exactly
6 alternative rows (lines 124-127) and exactly one row with `choice = 1`
(lines 129-132). -/
def reshape_to_long_format (df : List WideRow) : Except String (List LongRow) := do
  let long ← buildLong df
  let kept := dropInvalid long
  if (groupIds kept).all (fun id => (groupRows kept id).length == 6) then
    if (groupIds kept).all (fun id => ((groupRows kept id).map (fun r => r.choice)).sum == 1) then
      pure kept
    else .error "Invalid choice sets: not exactly 1 choice"
  else .error "Invalid choice sets: not exactly 6 alternatives"

/-- Python string order (code-point lexicographic) as used by `sorted`. -/
def strLe (a b : List Char) : Prop := ¬ b < a

instance : DecidableRel strLe := fun _ _ => instDecidableNot

/-- Python `sorted` on a list of strings. -/
def sortStrs (l : List (List Char)) : List (List Char) :=
  List.insertionSort strLe l

/-- The four base numeric feature names (train.py line 200). -/
def numericNames : List (List Char) :=
  [strL "price", strL "speed", strL "pollution", strL "size"]

/-- ASC feature names `asc_alt2` .. `asc_alt6` (train.py lines 203-208). -/
def ascNames : List (List Char) :=
  [strL "asc_alt2", strL "asc_alt3", strL "asc_alt4", strL "asc_alt5", strL "asc_alt6"]

/-- Interaction feature names (train.py line 211). -/
def interactionNames : List (List Char) :=
  [strL "college_x_fuel_electric", strL "hsg2_x_size", strL "coml5_x_price"]

def typeFeatName (v : List Char) : List Char := strL "type_" ++ v

def fuelFeatName (v : List Char) : List Char := strL "fuel_" ++ v

/-- The feature-schema dict built by `encode_categorical_features`
(train.py lines 216-227). -/
structure FeatureSchema where
  type_base : List Char
  fuel_base : List Char
  type_categories : List (List Char)
  fuel_categories : List (List Char)
  type_features : List (List Char)
  fuel_features : List (List Char)
  numeric_features : List (List Char)
  asc_features : List (List Char)
  interaction_features : List (List Char)
  feature_cols : List (List Char)
deriving DecidableEq

/-- `sorted(values)` with the base category removed: the categories that get
one-hot indicator columns (train.py lines 183-197). -/
def nonbase (cats : List (List Char)) (base : List Char) : List (List Char) :=
  (sortStrs cats).filter (fun v => v ≠ base)

/-- Schema construction from training data (the `feature_schema is None`
branch of `encode_categorical_features`, train.py lines 161-227): sorted
unique normalized levels, a hard failure when a configured base category is
absent (lines 167-170), indicator names for non-base levels, and the fixed
concatenation order of `feature_cols` (line 215). -/
def buildSchema (rows : List LongRow) (type_base fuel_base : List Char) :
    Except String FeatureSchema :=
  let tb := normStr type_base
  let fb := normStr fuel_base
  let tvals := sortStrs ((rows.map (fun r => normStr r.type)).dedup)
  let fvals := sortStrs ((rows.map (fun r => normStr r.fuel)).dedup)
  if tb ∈ tvals then
    if fb ∈ fvals then
      let tfeats := (nonbase tvals tb).map typeFeatName
      let ffeats := (nonbase fvals fb).map fuelFeatName
      .ok { type_base := tb
            fuel_base := fb
            type_categories := tvals
            fuel_categories := fvals
            type_features := tfeats
            fuel_features := ffeats
            numeric_features := numericNames
            asc_features := ascNames
            interaction_features := interactionNames
            feature_cols := tfeats ++ ffeats ++ numericNames ++ ascNames ++ interactionNames }
    else .error "Base fuel not found in data"
  else .error "Base type not found in data"

/-- The four scaled numeric attributes, as an index into the scaler. -/
inductive NumFeat
  | price
  | speed
  | pollution
  | size
deriving DecidableEq

/-- `StandardScaler` after fitting: one location and one scale per numeric
feature; `transform` is `(x - mean) / scale`. -/
structure Scaler where
  mean : NumFeat → ℝ
  scale : NumFeat → ℝ

/-- Apply the optional scaler to one numeric value (train.py lines 267-268:
scaling is applied only when a scaler is provided). -/
noncomputable def scaleF (scOpt : Option Scaler) (f : NumFeat) (x : ℝ) : ℝ :=
  match scOpt with
  | none => x
  | some sc => (x - sc.mean f) / sc.scale f

/-- The per-row values entering feature encoding, after string normalization
and numeric coercion, with demographics broadcast to the row. -/
structure EncRow where
  type : List Char
  fuel : List Char
  price : ℝ
  speed : ℝ
  pollution : ℝ
  size : ℝ
  college : ℝ
  hsg2 : ℝ
  coml5 : ℝ
  alternative_id : ℕ

def ind (p : Prop) [Decidable p] : ℝ := if p then 1 else 0

/-- The value of a one-hot indicator column of the encoded frame: the first
non-base schema category whose `type_v` / `fuel_v` indicator name equals
`col` determines the indicator; any other column name is absent from the
frame and zero-filled by the reindex (train.py lines 183-197, 231-234,
511). -/
noncomputable def featValCat (schema : FeatureSchema) (r : EncRow) (col : List Char) : ℝ :=
  match (nonbase schema.type_categories schema.type_base).find?
      (fun v => col == typeFeatName v) with
  | some v => ind (r.type = v)
  | none =>
    match (nonbase schema.fuel_categories schema.fuel_base).find?
        (fun v => col == fuelFeatName v) with
    | some v => ind (r.fuel = v)
    | none => 0

/-- The value of one feature column of one encoded row, after scaling and
interaction computation, as selected by
`reindex(columns=feature_cols, fill_value=0)` (train.py lines 183-244,
265-287, 311 and 488-511):
* the four numerics carry the (optionally) scaled value;
* `asc_alt2` .. `asc_alt6` are position indicators (lines 203-208);
* `college_x_fuel_electric` is `college * fuel_electric` when
  `fuel_electric` is among the schema fuel features, else the literal 0
  (lines 270-277); `hsg2_x_size` and `coml5_x_price` multiply the
  demographic by the SCALED numeric (lines 279-287);
* `type_v` / `fuel_v` indicator columns exist exactly for the non-base
  schema categories (lines 183-197); any other schema column is absent from
  the encoded frame and filled with 0 (lines 231-234, 511).
The dispatch assumes the distinct column names produced by `buildSchema`;
the demographics columns are included since they exist in the frame. -/
noncomputable def featVal (schema : FeatureSchema) (scOpt : Option Scaler) (r : EncRow)
    (col : List Char) : ℝ :=
  if col = strL "price" then scaleF scOpt .price r.price
  else if col = strL "speed" then scaleF scOpt .speed r.speed
  else if col = strL "pollution" then scaleF scOpt .pollution r.pollution
  else if col = strL "size" then scaleF scOpt .size r.size
  else if col = strL "asc_alt2" then ind (r.alternative_id = 2)
  else if col = strL "asc_alt3" then ind (r.alternative_id = 3)
  else if col = strL "asc_alt4" then ind (r.alternative_id = 4)
  else if col = strL "asc_alt5" then ind (r.alternative_id = 5)
  else if col = strL "asc_alt6" then ind (r.alternative_id = 6)
  else if col = strL "college_x_fuel_electric" then
    if strL "fuel_electric" ∈ schema.fuel_features then
      r.college * ind (r.fuel = strL "electric")
    else 0
  else if col = strL "hsg2_x_size" then r.hsg2 * scaleF scOpt .size r.size
  else if col = strL "coml5_x_price" then r.coml5 * scaleF scOpt .price r.price
  else if col = strL "college" then r.college
  else if col = strL "hsg2" then r.hsg2
  else if col = strL "coml5" then r.coml5
  else featValCat schema r col

/-- The values of one long row as they enter the encoder: `type`/`fuel`
re-normalized (train.py lines 151-152, idempotent after reshaping), NaN-free
numerics cast to float (rows reaching the matrix have been checked). -/
noncomputable def LongRow.encRow (r : LongRow) : EncRow :=
  { type := normStr r.type
    fuel := normStr r.fuel
    price := ((r.price.getD 0 : ℚ) : ℝ)
    speed := ((r.speed.getD 0 : ℚ) : ℝ)
    pollution := ((r.pollution.getD 0 : ℚ) : ℝ)
    size := ((r.size.getD 0 : ℚ) : ℝ)
    college := ((r.college.getD 0 : ℚ) : ℝ)
    hsg2 := ((r.hsg2.getD 0 : ℚ) : ℝ)
    coml5 := ((r.coml5.getD 0 : ℚ) : ℝ)
    alternative_id := r.alternative_id }

/-- The NaN check of `prepare_model_data` (train.py line 314) for one row:
NaN reaches the assembled matrix through the four numeric columns, through
`hsg2_x_size` and `coml5_x_price` (always computed), and through
`college_x_fuel_electric` exactly when `fuel_electric` is among the schema
fuel features (line 272; otherwise the column is the literal 0.0). -/
def rowHasNanFeature (schema : FeatureSchema) (r : LongRow) : Bool :=
  r.price.isNone || r.speed.isNone || r.pollution.isNone || r.size.isNone ||
    r.hsg2.isNone || r.coml5.isNone ||
    (r.college.isNone && schema.fuel_features.contains (strL "fuel_electric"))

/-- Comparison by alternative position. -/
def altIdLe (a b : LongRow) : Prop := a.alternative_id ≤ b.alternative_id

instance : DecidableRel altIdLe := fun a b => Nat.decLe a.alternative_id b.alternative_id

instance : IsTotal LongRow altIdLe := ⟨fun a b => Nat.le_total a.alternative_id b.alternative_id⟩

instance : IsTrans LongRow altIdLe := ⟨fun _ _ _ h1 h2 => Nat.le_trans h1 h2⟩

/-- `group.sort_values("alternative_id")` (train.py line 299): stable sort of
one choice-set group by ascending alternative position. -/
def sortAlt (g : List LongRow) : List LongRow :=
  List.insertionSort altIdLe g

/-- `prepare_model_data` (train.py lines 251-320): encode (building the
schema when none is given, line 260), scale and add interactions, then group
by `choice_set_id`, sort each group by `alternative_id`, take the choice
vector `y` (asserting exactly one choice, line 305), and assemble the
feature matrix in exact `feature_cols` order (line 311), raising on NaN
(lines 314-315).  Returns `(y_list, X_list, feature_schema, choice_set_ids)`
(`feature_cols` is recoverable from the schema).  `prepGroup` is the body of
the per-group loop (train.py lines 297-318). -/
noncomputable def prepGroup (rows : List LongRow) (schema : FeatureSchema)
    (scOpt : Option Scaler) (id : ℕ) : Except String (List ℕ × List (List ℝ)) :=
  let g := sortAlt (groupRows rows id)
  let y := (g.map (fun r => r.choice))
  if y.sum == 1 then
    if g.any (rowHasNanFeature schema) then
      .error "NaN values found in choice set"
    else
      .ok (y, g.map (fun r => schema.feature_cols.map (featVal schema scOpt r.encRow)))
  else
    .error "AssertionError: choice set has not exactly 1 choice"

noncomputable def prepare_model_data (rows : List LongRow)
    (schemaOpt : Option FeatureSchema) (scOpt : Option Scaler) :
    Except String (List (List ℕ) × List (List (List ℝ)) × FeatureSchema × List ℕ) := do
  let schema ← match schemaOpt with
    | none => buildSchema rows (strL "van") (strL "gasoline")
    | some s => .ok s
  let ids := groupIds rows
  let pairs ← mapE (prepGroup rows schema scOpt) ids
  .ok (pairs.map (fun p => p.1), pairs.map (fun p => p.2), schema, ids)

/-- `numpy` max of a 1-d array (`utilities.max()`); callers never pass an
empty array (numpy raises there, and `predict_choice` is modelled to fail
on an empty choice set). -/
def listMax : List ℝ → ℝ
  | [] => 0
  | x :: xs => xs.foldl max x

/-- The stabilized softmax shared by training and prediction
(train.py lines 348-351 and 534-537): subtract the maximum utility,
exponentiate, normalize. -/
noncomputable def softmaxProbs (us : List ℝ) : List ℝ :=
  (us.map (fun u => Real.exp (u - listMax us))).map
    (fun e => e / (us.map (fun u => Real.exp (u - listMax us))).sum)

/-- Dot product of one attribute row with the coefficient vector. -/
def dotL (r beta : List ℝ) : ℝ :=
  ((r.zip beta).map (fun p => p.1 * p.2)).sum

/-- `X @ beta` for a 2-d `X`: numpy raises a dimension-mismatch `ValueError`
unless every row has exactly `len(beta)` entries. -/
def npMatVec (X : List (List ℝ)) (beta : List ℝ) : Option (List ℝ) :=
  if X.all (fun r => r.length == beta.length) then some (X.map (fun r => dotL r beta))
  else none

/-- The trained-model dict returned by `train_mnl_model`
(train.py lines 425-432; the raw scipy result object is not modelled). -/
structure TrainedModel where
  coefficients : List ℝ
  feature_names : List (List Char)
  log_likelihood : ℝ
  n_observations : ℕ
  n_parameters : ℕ

/-- The persisted bundle written by `save_model` (train.py lines 434-447):
the trained model plus the feature schema and the scaler. -/
structure ModelArtifact where
  coefficients : List ℝ
  feature_names : List (List Char)
  log_likelihood : ℝ
  n_observations : ℕ
  n_parameters : ℕ
  feature_schema : FeatureSchema
  scaler : Scaler

/-- `save_model` (train.py lines 434-447): merge the model dict with the
schema and scaler and pickle the bundle; no validation is performed. -/
def save_model (m : TrainedModel) (schema : FeatureSchema) (sc : Scaler) : ModelArtifact :=
  { coefficients := m.coefficients
    feature_names := m.feature_names
    log_likelihood := m.log_likelihood
    n_observations := m.n_observations
    n_parameters := m.n_parameters
    feature_schema := schema
    scaler := sc }

/-- Loading the artifact, as the repository documents it
(train.py lines 656-664: a bare `pickle.load`): the bundle is returned as
persisted, with no schema/coefficient compatibility check of any kind. -/
def load_model (a : ModelArtifact) : Except String ModelArtifact :=
  .ok a

/-- `predict_choice` (train.py lines 515-539): utilities `X @ beta` with
`beta = model[coefficients]`, then the stabilized softmax.  `none` models
the numpy exceptions: a dimension mismatch in `X @ beta`, or `.max()` on an
empty choice set. -/
noncomputable def predict_choice (model : ModelArtifact) (X : List (List ℝ)) :
    Option (List ℝ) :=
  match npMatVec X model.coefficients with
  | none => none
  | some us => if us.isEmpty then none else some (softmaxProbs us)

/-- The summand of the log-likelihood for one choice set
(train.py lines 344-359): softmax probabilities of the utilities, `continue`
(contribute 0) when no alternative is chosen, else
`log(probs[chosen] + 1e-10)`.  Call sites guarantee the chosen index is in
range and the row widths match `beta` (`getD 0` and the truncating zip are
never exercised there). -/
noncomputable def setLogTerm (beta : List ℝ) (y : List ℕ) (X : List (List ℝ)) : ℝ :=
  let us := X.map (fun r => dotL r beta)
  let probs := softmaxProbs us
  match y.findIdx? (fun c => c == 1) with
  | none => 0
  | some i => Real.log (probs.getD i 0 + 1e-10)

/-- The unregularized log-likelihood `Σ_i log(P_i,chosen + 1e-10)`. -/
noncomputable def rawLogLik (beta : List ℝ) (y_list : List (List ℕ))
    (X_list : List (List (List ℝ))) : ℝ :=
  ((y_list.zip X_list).map (fun p => setLogTerm beta p.1 p.2)).sum

/-- `conditional_logit_loglikelihood` (train.py lines 339-364): the negated
penalized log-likelihood `-(Σ_i log(P_i,chosen + 1e-10) - l2_reg * Σ beta²)`
minimized by the optimizer. -/
noncomputable def conditional_logit_loglikelihood (beta : List ℝ)
    (y_list : List (List ℕ)) (X_list : List (List (List ℝ))) (l2_reg : ℝ) : ℝ :=
  -(rawLogLik beta y_list X_list - l2_reg * (beta.map (fun b => b ^ 2)).sum)

/-- `L2_REGULARIZATION = 1e-4` (train.py line 17). -/
noncomputable def L2_REGULARIZATION : ℝ := 1e-4

/-- `train_mnl_model` (train.py lines 322-432).  The scipy BFGS call is an
external black box, modelled as an arbitrary `minimizeFn` applied to the
penalized objective and a zero initial vector (lines 366-378); whatever
iterate it returns becomes the coefficient vector (non-convergence is only
a warning, line 380).  The reported `log_likelihood` is recomputed at the
optimum with the regularization coefficient set to `0.0` (line 387). -/
noncomputable def train_mnl_model (minimizeFn : (List ℝ → ℝ) → List ℝ → List ℝ)
    (y_list : List (List ℕ)) (X_list : List (List (List ℝ)))
    (feature_names : List (List Char)) (l2_reg : ℝ) : TrainedModel :=
  let n := (X_list.headD []).length
  let beta_init : List ℝ := List.replicate n 0
  let beta_hat := minimizeFn
    (fun b => conditional_logit_loglikelihood b y_list X_list l2_reg) beta_init
  { coefficients := beta_hat
    feature_names := feature_names
    log_likelihood := -(conditional_logit_loglikelihood beta_hat y_list X_list 0)
    n_observations := y_list.length
    n_parameters := beta_hat.length }

/-- One inference candidate (`df_candidates` row, train.py lines 455-457). -/
structure Candidate where
  type : List Char
  fuel : List Char
  price : ℝ
  speed : ℝ
  pollution : ℝ
  size : ℝ

/-- The optional demographic profile (train.py lines 468-469, default 0). -/
structure UserProfile where
  college : ℝ
  hsg2 : ℝ
  coml5 : ℝ

/-- The encoding-relevant values of one candidate: normalized strings
(train.py lines 473-474), broadcast demographics (lines 480-482), and the
1-indexed alternative id (line 477). -/
noncomputable def Candidate.encRow (c : Candidate) (p : UserProfile) (altId : ℕ) : EncRow :=
  { type := normStr c.type
    fuel := normStr c.fuel
    price := c.price
    speed := c.speed
    pollution := c.pollution
    size := c.size
    college := p.college
    hsg2 := p.hsg2
    coml5 := p.coml5
    alternative_id := altId }

/-- Row-by-row inference encoding with the running 1-indexed alternative id. -/
noncomputable def encodeInferAux (schema : FeatureSchema) (sc : Scaler)
    (p : UserProfile) : ℕ → List Candidate → List (List ℝ)
  | _, [] => []
  | altId, c :: rest =>
    (schema.feature_cols.map (featVal schema (some sc) (c.encRow p altId))) ::
      encodeInferAux schema sc p (altId + 1) rest

/-- `encode_for_inference` (train.py lines 449-513): normalize the
candidates, assign alternative ids 1..n, encode with the artifact schema,
apply the artifact scaler to the numerics, compute interactions AFTER
scaling (lines 493-507), and reindex to exact `feature_cols` order with
zero fill (lines 509-511).  Total: with a supplied schema no error path
exists (unseen categories simply produce no indicator). -/
noncomputable def encode_for_inference (cands : List Candidate)
    (model : ModelArtifact) (p : UserProfile) : List (List ℝ) :=
  encodeInferAux model.feature_schema model.scaler p 1 cands

/-- `np.argmax` on a 1-d array: index of the first maximal entry;
`none` on an empty array (numpy raises). -/
noncomputable def argmaxAux : List ℝ → ℕ → ℕ → ℝ → ℕ
  | [], _, best, _ => best
  | x :: xs, i, best, bv =>
    if bv < x then argmaxAux xs (i + 1) i x else argmaxAux xs (i + 1) best bv

noncomputable def npArgmax : List ℝ → Option ℕ
  | [] => none
  | x :: xs => some (argmaxAux xs 1 0 x)

/-- Effectful `map` over `Option`. -/
def mapO (f : α → Option β) : List α → Option (List β)
  | [] => some []
  | a :: l => do
    let b ← f a
    let bs ← mapO f l
    pure (b :: bs)

/-- One iteration of the evaluation loop (train.py lines 551-560): predict,
take the argmax index, locate the chosen alternative (`np.where(y==1)[0][0]`
raises when nothing is chosen), and record whether the prediction is correct
together with the probability assigned to the chosen alternative. -/
noncomputable def evalStep (model : ModelArtifact) (p : List ℕ × List (List ℝ)) :
    Option (Bool × ℝ) := do
  let probs ← predict_choice model p.2
  let pIdx ← npArgmax probs
  let aIdx ← p.1.findIdx? (fun c => c == 1)
  let cp ← probs.get? aIdx
  pure (pIdx == aIdx, cp)

/-- `evaluate_model` (train.py lines 541-574): top-1 accuracy
`correct / len(y_list)` and the mean probability assigned to the chosen
alternative.  `none` models the error paths: a failing prediction step, the
`ZeroDivisionError` on an empty `y_list`, and the NaN mean of an empty
probability list. -/
noncomputable def evaluate_model (model : ModelArtifact) (y_list : List (List ℕ))
    (X_list : List (List (List ℝ))) : Option (ℝ × ℝ) := do
  let res ← mapO (evalStep model) (y_list.zip X_list)
  if y_list.length = 0 then none
  else if res.length = 0 then none
  else
    some (((res.countP (fun q => q.1)) : ℝ) / (y_list.length : ℝ),
      ((res.map (fun q => q.2)).sum) / (res.length : ℝ))

/-- The coerced numeric column `f` of a long row (NaN-free at scaler-fitting
time: reshaping dropped every NaN choice set). -/
def LongRow.num (r : LongRow) : NumFeat → Option ℚ
  | .price => r.price
  | .speed => r.speed
  | .pollution => r.pollution
  | .size => r.size

/-- `StandardScaler().fit(train_encoded[numeric_features])`
(train.py lines 608-612): per-column mean and population standard deviation
over the (raw, unscaled) training long rows; sklearn replaces a zero scale
by 1 (`_handle_zeros_in_scale`). -/
noncomputable def fitScaler (rows : List LongRow) : Scaler :=
  { mean := fun f =>
      ((rows.map (fun r => (((r.num f).getD 0 : ℚ) : ℝ))).sum) / (rows.length : ℝ)
    scale := fun f =>
      let xs := rows.map (fun r => (((r.num f).getD 0 : ℚ) : ℝ))
      let mu := xs.sum / (xs.length : ℝ)
      let s := Real.sqrt (((xs.map (fun x => (x - mu) ^ 2)).sum) / (xs.length : ℝ))
      if s = 0 then 1 else s }

/-- The training split: the rows whose `choice_set_id` was drawn into the
train side of `train_test_split` (train.py lines 588-596). -/
def trainSplit (rows : List LongRow) (trainIds : List ℕ) : List LongRow :=
  rows.filter (fun r => trainIds.contains r.choice_set_id)

/-- The validation split (train.py line 597). -/
def valSplit (rows : List LongRow) (trainIds : List ℕ) : List LongRow :=
  rows.filter (fun r => !(trainIds.contains r.choice_set_id))

/-- The schema/scaler/encoding portion of `main` (train.py lines 588-623),
with the randomized `train_test_split` abstracted into the id list
`trainIds`: split by `choice_set_id`, build the feature schema from the
TRAIN split only (line 605), fit the scaler exactly once on the train
split's raw numeric columns (lines 608-612), then encode the train and the
validation split with that same schema and scaler (lines 615-623). -/
noncomputable def mainPipeline (long_rows : List LongRow) (trainIds : List ℕ) :
    Except String (FeatureSchema × Scaler ×
      (List (List ℕ) × List (List (List ℝ))) ×
      (List (List ℕ) × List (List (List ℝ)))) := do
  let train_df := trainSplit long_rows trainIds
  let val_df := valSplit long_rows trainIds
  let (_, _, schema, _) ← prepare_model_data train_df none none
  let scaler := fitScaler train_df
  let (y_train, X_train, _, _) ← prepare_model_data train_df (some schema) (some scaler)
  let (y_val, X_val, _, _) ← prepare_model_data val_df (some schema) (some scaler)
  .ok (schema, scaler, (y_train, X_train), (y_val, X_val))

/-! ### Helper lemmas about the stabilized softmax -/

lemma sum_map_div (l : List ℝ) (c : ℝ) : ((l.map (fun x => x / c)).sum) = l.sum / c := by
  induction l with
  | nil => simp
  | cons a t ih => simp [ih, add_div]

lemma foldl_max_mem (xs : List ℝ) (a : ℝ) : xs.foldl max a ∈ a :: xs := by
  induction xs generalizing a with
  | nil => simp
  | cons x t ih =>
    have h := ih (max a x)
    rcases List.mem_cons.mp h with h1 | h1
    · rcases max_choice a x with h2 | h2 <;> rw [List.foldl_cons, h1, h2] <;> simp
    · simp [List.foldl_cons, List.mem_cons.mpr (Or.inr h1)]

lemma le_foldl_max (xs : List ℝ) (a : ℝ) :
    a ≤ xs.foldl max a ∧ ∀ x ∈ xs, x ≤ xs.foldl max a := by
  induction xs generalizing a with
  | nil => simp
  | cons x t ih =>
    have h := ih (max a x)
    constructor
    · rw [List.foldl_cons]
      exact le_trans (le_max_left a x) h.1
    · intro z hz
      rw [List.foldl_cons]
      rcases List.mem_cons.mp hz with rfl | h1
      · exact le_trans (le_max_right a z) h.1
      · exact h.2 z h1

lemma listMax_mem (us : List ℝ) (h : us ≠ []) : listMax us ∈ us := by
  cases us with
  | nil => exact absurd rfl h
  | cons x xs => exact foldl_max_mem xs x

lemma le_listMax (us : List ℝ) (u : ℝ) (hu : u ∈ us) : u ≤ listMax us := by
  cases us with
  | nil => simp at hu
  | cons x xs =>
    rcases List.mem_cons.mp hu with h1 | h1
    · exact h1 ▸ (le_foldl_max xs x).1
    · exact (le_foldl_max xs x).2 u h1

lemma exps_sum_pos (us : List ℝ) (h : us ≠ []) :
    0 < ((us.map (fun u => Real.exp (u - listMax us))).sum) := by
  apply List.sum_pos
  · intro e he
    rcases List.mem_map.mp he with ⟨u, _, rfl⟩
    exact Real.exp_pos _
  · simpa using h

lemma exps_sum_ge_one (us : List ℝ) (h : us ≠ []) :
    1 ≤ ((us.map (fun u => Real.exp (u - listMax us))).sum) := by
  have hmem : (1 : ℝ) ∈ us.map (fun u => Real.exp (u - listMax us)) := by
    rw [← Real.exp_zero, ← sub_self (listMax us)]
    exact List.mem_map.mpr ⟨listMax us, listMax_mem us h, rfl⟩
  exact List.single_le_sum
    (fun x hx => by
      rcases List.mem_map.mp hx with ⟨u, _, rfl⟩
      exact (Real.exp_pos _).le) 1 hmem

lemma softmax_length (us : List ℝ) : (softmaxProbs us).length = us.length := by
  simp [softmaxProbs]

lemma softmax_sum (us : List ℝ) (h : us ≠ []) : (softmaxProbs us).sum = 1 := by
  rw [softmaxProbs, sum_map_div]
  exact div_self (exps_sum_pos us h).ne'

lemma softmax_mem_bounds (us : List ℝ) (h : us ≠ []) :
    ∀ p ∈ softmaxProbs us, 0 < p ∧ p ≤ 1 := by
  intro p hp
  rw [softmaxProbs] at hp
  rcases List.mem_map.mp hp with ⟨e, hemem, rfl⟩
  have hS := exps_sum_pos us h
  rcases List.mem_map.mp hemem with ⟨u, _, rfl⟩
  constructor
  · exact div_pos (Real.exp_pos _) hS
  · rw [div_le_one hS]
    exact List.single_le_sum
      (fun x hx => by
        rcases List.mem_map.mp hx with ⟨v, _, rfl⟩
        exact (Real.exp_pos _).le) _ hemem

lemma npMatVec_ok (X : List (List ℝ)) (beta : List ℝ)
    (h : ∀ r ∈ X, r.length = beta.length) :
    npMatVec X beta = some (X.map (fun r => dotL r beta)) := by
  rw [npMatVec, if_pos]
  rw [List.all_eq_true]
  intro r hr
  exact beq_iff_eq.mpr (h r hr)

lemma predict_choice_eq (m : ModelArtifact) (X : List (List ℝ)) (hne : X ≠ [])
    (h : ∀ r ∈ X, r.length = m.coefficients.length) :
    predict_choice m X = some (softmaxProbs (X.map (fun r => dotL r m.coefficients))) := by
  rw [predict_choice, npMatVec_ok X m.coefficients h]
  have : (X.map (fun r => dotL r m.coefficients)).isEmpty = false := by
    cases X with
    | nil => exact absurd rfl hne
    | cons a t => rfl
  simp [this]

/-! ### Claim theorems -/

/-- An empty feature schema, used to populate artifacts in closed witnesses. -/
def emptySchema : FeatureSchema :=
  { type_base := [], fuel_base := [], type_categories := [], fuel_categories := [],
    type_features := [], fuel_features := [], numeric_features := [],
    asc_features := [], interaction_features := [], feature_cols := [] }

/-- An identity scaler (location 0, scale 1), for closed witnesses. -/
def idScaler : Scaler := { mean := fun _ => 0, scale := fun _ => 1 }

/-- A minimal artifact holding a given coefficient vector, for witnesses. -/
def artifactWith (beta : List ℝ) : ModelArtifact :=
  { coefficients := beta, feature_names := [], log_likelihood := 0,
    n_observations := 0, n_parameters := beta.length,
    feature_schema := emptySchema, scaler := idScaler }

/-- Claim C1: for every nonempty attribute matrix `X` and any coefficient
vector of matching length, `predict_choice` returns one probability per row
of `X`, each non-negative, summing to exactly 1 (the floating tolerance of
the claim is exact over `ℝ`). -/
theorem predict_choice_valid_distribution (m : ModelArtifact) (X : List (List ℝ))
    (hne : X ≠ []) (hlen : ∀ r ∈ X, r.length = m.coefficients.length) :
    ∃ ps, predict_choice m X = some ps ∧ ps.length = X.length ∧
      (∀ p ∈ ps, 0 ≤ p) ∧ ps.sum = 1 := by
  have hXne : X.map (fun r => dotL r m.coefficients) ≠ [] := by
    simpa using hne
  refine ⟨_, predict_choice_eq m X hne hlen, ?_, ?_, ?_⟩
  · rw [softmax_length, List.length_map]
  · intro p hp
    exact (softmax_mem_bounds _ hXne p hp).1.le
  · exact softmax_sum _ hXne

/-- Closed witness for C1: a 2-alternative choice set with a 1-dimensional
coefficient vector. -/
theorem predict_choice_valid_distribution_witness :
    ([[(0 : ℝ)], [1]] ≠ ([] : List (List ℝ))) ∧
      ∃ ps, predict_choice (artifactWith [0]) [[(0 : ℝ)], [1]] = some ps ∧
        ps.length = 2 ∧ (∀ p ∈ ps, 0 ≤ p) ∧ ps.sum = 1 :=
  ⟨by simp, predict_choice_valid_distribution (artifactWith [0]) [[0], [1]] (by simp)
    (by intro r hr; simp at hr; rcases hr with rfl | rfl <;> rfl)⟩

/-- Claim C10: with max-subtraction, the softmax denominator is at least 1
(the maximal alternative contributes `exp 0 = 1`), every exponentiated term
lies in `(0, 1]`, and every probability produced by `predict_choice` (and
by the shared softmax of the training objective) lies in `(0, 1]`; no
division by zero occurs. -/
theorem predict_choice_no_div_zero (m : ModelArtifact) (X : List (List ℝ))
    (hne : X ≠ []) (hlen : ∀ r ∈ X, r.length = m.coefficients.length) :
    ∃ us, npMatVec X m.coefficients = some us ∧
      1 ≤ ((us.map (fun u => Real.exp (u - listMax us))).sum) ∧
      (∀ e ∈ us.map (fun u => Real.exp (u - listMax us)), 0 < e ∧ e ≤ 1) ∧
      ∃ ps, predict_choice m X = some ps ∧ ∀ p ∈ ps, 0 < p ∧ p ≤ 1 := by
  have hXne : X.map (fun r => dotL r m.coefficients) ≠ [] := by simpa using hne
  refine ⟨_, npMatVec_ok X m.coefficients hlen, exps_sum_ge_one _ hXne, ?_,
    _, predict_choice_eq m X hne hlen, softmax_mem_bounds _ hXne⟩
  intro e he
  rcases List.mem_map.mp he with ⟨u, hu, rfl⟩
  refine ⟨Real.exp_pos _, ?_⟩
  rw [Real.exp_le_one_iff, sub_nonpos]
  exact le_listMax _ u hu

/-- Closed witness for C10. -/
theorem predict_choice_no_div_zero_witness :
    ([[(2 : ℝ)], [5]] ≠ ([] : List (List ℝ))) ∧
      ∃ us, npMatVec [[(2 : ℝ)], [5]] (artifactWith [1]).coefficients = some us ∧
        1 ≤ ((us.map (fun u => Real.exp (u - listMax us))).sum) ∧
        (∀ e ∈ us.map (fun u => Real.exp (u - listMax us)), 0 < e ∧ e ≤ 1) ∧
        ∃ ps, predict_choice (artifactWith [1]) [[(2 : ℝ)], [5]] = some ps ∧
          ∀ p ∈ ps, 0 < p ∧ p ≤ 1 :=
  ⟨by simp, predict_choice_no_div_zero (artifactWith [1]) [[2], [5]] (by simp)
    (by intro r hr; simp at hr; rcases hr with rfl | rfl <;> rfl)⟩

/-- Claim C6: whatever iterate the optimizer returns, the model's reported
`log_likelihood` equals the UNREGULARIZED log-likelihood recomputed at the
returned coefficient vector (the objective value at the optimum with the L2
coefficient set to 0), even though the objective handed to the minimizer
includes the L2 penalty (second conjunct: the trained objective is the
penalized negation of `rawLogLik` for every `beta`). -/
theorem train_reported_loglik_unregularized
    (minimizeFn : (List ℝ → ℝ) → List ℝ → List ℝ)
    (y_list : List (List ℕ)) (X_list : List (List (List ℝ)))
    (feature_names : List (List Char)) (l2_reg : ℝ) :
    (train_mnl_model minimizeFn y_list X_list feature_names l2_reg).log_likelihood =
      rawLogLik (train_mnl_model minimizeFn y_list X_list feature_names l2_reg).coefficients
        y_list X_list ∧
    ∀ beta : List ℝ,
      conditional_logit_loglikelihood beta y_list X_list l2_reg =
        -(rawLogLik beta y_list X_list - l2_reg * (beta.map (fun b => b ^ 2)).sum) := by
  constructor
  · rw [train_mnl_model]
    rw [conditional_logit_loglikelihood]
    ring
  · intro beta
    rw [conditional_logit_loglikelihood]

/-- The validity condition checked by `reshape_to_long_format` after the
NaN drop: every surviving choice set has exactly 6 alternative rows and
exactly one chosen row. -/
def validSets (rows : List LongRow) : Prop :=
  ∀ id ∈ groupIds rows, (groupRows rows id).length = 6 ∧
    ((groupRows rows id).map (fun r => r.choice)).sum = 1

lemma validSets_iff_all (rows : List LongRow) :
    validSets rows ↔
      ((groupIds rows).all (fun id => (groupRows rows id).length == 6) = true ∧
        (groupIds rows).all
          (fun id => ((groupRows rows id).map (fun r => r.choice)).sum == 1) = true) := by
  unfold validSets
  rw [List.all_eq_true, List.all_eq_true]
  constructor
  · intro h
    exact ⟨fun id hid => beq_iff_eq.mpr (h id hid).1,
      fun id hid => beq_iff_eq.mpr (h id hid).2⟩
  · intro h id hid
    exact ⟨beq_iff_eq.mp (h.1 id hid), beq_iff_eq.mp (h.2 id hid)⟩

lemma reshape_eq_of_buildLong (df : List WideRow) (long : List LongRow)
    (h : buildLong df = .ok long) :
    reshape_to_long_format df =
      (if (groupIds (dropInvalid long)).all
            (fun id => (groupRows (dropInvalid long) id).length == 6) then
        if (groupIds (dropInvalid long)).all
            (fun id => ((groupRows (dropInvalid long) id).map (fun r => r.choice)).sum == 1) then
          Except.ok (dropInvalid long)
        else Except.error "Invalid choice sets: not exactly 1 choice"
      else Except.error "Invalid choice sets: not exactly 6 alternatives") := by
  simp only [reshape_to_long_format, h, Except.bind, pure, Except.pure, bind]

/-- Claim C2: a choice set with any missing/unparseable numeric in any of
its alternatives is dropped wholesale before validation (no surviving row
shares a `choice_set_id` with a NaN row); after the drop, reshaping
succeeds exactly when every surviving choice set has 6 alternative rows and
exactly one chosen row (otherwise it raises, aborting before any fitting),
and a successful reshape returns precisely the post-drop table. -/
theorem reshape_drops_nan_sets_then_validates (df : List WideRow)
    (long : List LongRow) (h : buildLong df = .ok long) :
    (∀ r ∈ dropInvalid long, ∀ r2 ∈ long,
        r2.choice_set_id = r.choice_set_id → rowHasNan r2 = false) ∧
    (reshape_to_long_format df = .ok (dropInvalid long) ↔ validSets (dropInvalid long)) ∧
    (∀ out, reshape_to_long_format df = .ok out → out = dropInvalid long) := by
  have hr := reshape_eq_of_buildLong df long h
  refine ⟨?_, ?_, ?_⟩
  · intro r hrmem r2 hr2 hid
    rcases List.mem_filter.mp hrmem with ⟨_, hkeep⟩
    by_contra hnan
    have hnan2 : rowHasNan r2 = true := by
      cases h2 : rowHasNan r2
      · exact absurd h2 hnan
      · rfl
    have hin : r.choice_set_id ∈ invalidIds long := by
      unfold invalidIds
      exact List.mem_map.mpr ⟨r2, List.mem_filter.mpr ⟨hr2, hnan2⟩, hid⟩
    have hcont : (invalidIds long).contains r.choice_set_id = true :=
      List.contains_iff_exists_mem_beq.mpr ⟨r.choice_set_id, hin, by simp⟩
    rw [Bool.not_eq_true'] at hkeep
    rw [hcont] at hkeep
    simp at hkeep
  · rw [hr, validSets_iff_all]
    constructor
    · intro hok
      by_cases hA : (groupIds (dropInvalid long)).all
          (fun id => (groupRows (dropInvalid long) id).length == 6) = true
      · rw [if_pos hA] at hok
        by_cases hB : (groupIds (dropInvalid long)).all
            (fun id => ((groupRows (dropInvalid long) id).map (fun r => r.choice)).sum == 1) = true
        · exact ⟨hA, hB⟩
        · rw [if_neg hB] at hok
          exact absurd hok (by simp)
      · rw [if_neg hA] at hok
        exact absurd hok (by simp)
    · intro hv
      rw [if_pos hv.1, if_pos hv.2]
  · intro out hout
    rw [hr] at hout
    by_cases hA : (groupIds (dropInvalid long)).all
        (fun id => (groupRows (dropInvalid long) id).length == 6) = true
    · rw [if_pos hA] at hout
      by_cases hB : (groupIds (dropInvalid long)).all
          (fun id => ((groupRows (dropInvalid long) id).map (fun r => r.choice)).sum == 1) = true
      · rw [if_pos hB] at hout
        exact (Except.ok.injEq ..).mp hout.symm
      · rw [if_neg hB] at hout
        exact absurd hout (by simp)
    · rw [if_neg hA] at hout
      exact absurd hout (by simp)

/-- A fully valid alternative (all numerics present). -/
def altOk : AltCols :=
  { type := strL "van", fuel := strL "gasoline",
    price := some 1, speed := some 1, pollution := some 1, size := some 1 }

/-- An alternative whose price failed numeric coercion (NaN). -/
def altNaN : AltCols := { altOk with price := none }

/-- A valid wide row choosing alternative 1. -/
def wrowOk : WideRow :=
  { choice := strL "choice1", a1 := altOk, a2 := altOk, a3 := altOk,
    a4 := altOk, a5 := altOk, a6 := altOk,
    college := some 0, hsg2 := some 0, coml5 := some 0 }

/-- A wide row with a NaN numeric in its first alternative. -/
def wrowNaN : WideRow := { wrowOk with a1 := altNaN }

/-- The concrete two-row wide table used by the reshape witness. -/
def dfC2 : List WideRow := [wrowOk, wrowNaN]

/-- Closed witness for C2, on a concrete table whose second choice set has
a NaN numeric. -/
theorem reshape_drops_nan_sets_then_validates_witness :
    ∃ long, buildLong dfC2 = .ok long ∧
      ((∀ r ∈ dropInvalid long, ∀ r2 ∈ long,
          r2.choice_set_id = r.choice_set_id → rowHasNan r2 = false) ∧
      (reshape_to_long_format dfC2 = .ok (dropInvalid long) ↔ validSets (dropInvalid long)) ∧
      (∀ out, reshape_to_long_format dfC2 = .ok out → out = dropInvalid long)) :=
  ⟨_, rfl, reshape_drops_nan_sets_then_validates dfC2 _ rfl⟩

/-- A wide row whose `choice` token starts with `choice` but has an
unparseable remainder. -/
def wrowBadChoice : WideRow := { wrowOk with choice := strL "choiceX" }

/-- Counterexample to claim C3 as stated: the token `choiceX` is
unparseable in the claim's sense (neither a parseable prefixed token nor a
bare integer), yet reshaping FAILS on it instead of defaulting to
alternative 1 — `int(choice_str.replace("choice", ""))` on train.py line 67
is outside any exception handler. -/
theorem reshape_unparseable_choice_counterexample :
    (pyInt? (stripChoiceAll (trimL (strL "choiceX"))) = none ∧
      pyInt? (trimL (strL "choiceX")) = none) ∧
    reshape_to_long_format [wrowBadChoice] =
      .error "ValueError: invalid literal for int" :=
  ⟨by decide, rfl⟩

lemma parse_choice_ok_of_no_prefix (s : List Char)
    (h : startsWithChoice (trimL s) = false) :
    ∃ n, parse_choice s = .ok n := by
  cases hp : pyInt? (trimL s) with
  | none => exact ⟨1, by simp [parse_choice, h, hp]⟩
  | some n => exact ⟨n, by simp [parse_choice, h, hp]⟩

lemma rowToLong_ok_of_parse (idx : ℕ) (r : WideRow) (n : ℤ)
    (hn : parse_choice r.choice = .ok n) :

    rowToLong idx r = .ok (longBlock idx r n) := by
  simp only [rowToLong, hn, Except.bind, bind, pure, Except.pure]

lemma buildLongAux_ok (df : List WideRow)
    (h : ∀ r ∈ df, ∃ n, parse_choice r.choice = .ok n) :
    ∀ idx, ∃ long, buildLongAux idx df = .ok long := by
  induction df with
  | nil => exact fun idx => ⟨[], rfl⟩
  | cons r rest ih =>
    intro idx
    obtain ⟨n, hn⟩ := h r (List.mem_cons_self r rest)
    have hrows := rowToLong_ok_of_parse idx r n hn
    obtain ⟨tail, htail⟩ := ih (fun q hq => h q (List.mem_cons_of_mem r hq)) (idx + 1)
    exact ⟨longBlock idx r n ++ tail,
      by simp only [buildLongAux, hrows, htail, Except.bind, bind, pure, Except.pure]⟩

/-- Claim C3, amended: the non-fatal fallback applies only to `choice`
tokens that do NOT start with the literal prefix `choice` — for those,
an unparseable token defaults the chosen index to 1 (with a logged warning)
and the row is processed; a token that starts with `choice` but whose
remainder is not a bare integer instead raises an uncaught error (see the
counterexample), aborting reshaping. -/
theorem reshape_choice_fallback_amended (df : List WideRow)
    (h : ∀ r ∈ df, startsWithChoice (trimL r.choice) = false) :
    (∃ long, buildLong df = .ok long) ∧
    ∀ idx, ∀ r ∈ df, pyInt? (trimL r.choice) = none →
      parse_choice r.choice = .ok 1 ∧
      ∃ rows, rowToLong idx r = .ok rows ∧
        rows.map (fun q => q.choice) = [1, 0, 0, 0, 0, 0] := by
  constructor
  · exact buildLongAux_ok df
      (fun r hr => parse_choice_ok_of_no_prefix r.choice (h r hr)) 0
  · intro idx r hr hp
    have hparse : parse_choice r.choice = .ok 1 := by
      simp [parse_choice, h r hr, hp]
    exact ⟨hparse, longBlock idx r 1, rowToLong_ok_of_parse idx r 1 hparse, rfl⟩

/-- A wide row whose `choice` token is unparseable and has no `choice`
prefix. -/
def wrowAbc : WideRow := { wrowOk with choice := strL "abc" }

/-- Closed witness for the amended C3, on a concrete row with the
unparseable bare token `abc`. -/
theorem reshape_choice_fallback_amended_witness :
    (∀ r ∈ [wrowAbc], startsWithChoice (trimL r.choice) = false) ∧
    ((∃ long, buildLong [wrowAbc] = .ok long) ∧
      ∀ idx, ∀ r ∈ [wrowAbc], pyInt? (trimL r.choice) = none →
        parse_choice r.choice = .ok 1 ∧
        ∃ rows, rowToLong idx r = .ok rows ∧
          rows.map (fun q => q.choice) = [1, 0, 0, 0, 0, 0]) :=
  ⟨by decide, reshape_choice_fallback_amended [wrowAbc] (by decide)⟩

/-! ### featVal dispatch lemmas -/

lemma head_ne_cons {a b : Char} {l m : List Char} (hab : ¬ a = b) : ¬ (a :: l = b :: m) := by
  intro h
  injection h with h1 _
  exact hab h1

lemma find?_unique {α : Type} {p : α → Bool} {l : List α} {v : α} (hv : v ∈ l)
    (hpv : p v = true) (huniq : ∀ w ∈ l, p w = true → w = v) : l.find? p = some v := by
  induction l with
  | nil => simp at hv
  | cons a t ih =>
    cases hpa : p a with
    | true =>
      rw [List.find?_cons_of_pos _ hpa]
      rw [huniq a (List.mem_cons_self a t) hpa]
    | false =>
      rw [List.find?_cons_of_neg _ (by simp [hpa])]
      rcases List.mem_cons.mp hv with rfl | h1
      · rw [hpv] at hpa; cases hpa
      · exact ih h1 (fun w hw hpw => huniq w (List.mem_cons_of_mem a hw) hpw)

lemma mem_of_mem_nonbase {cats : List (List Char)} {base v : List Char}
    (hv : v ∈ nonbase cats base) : v ∈ cats := by
  rcases List.mem_filter.mp hv with ⟨hs, _⟩
  exact (List.perm_insertionSort strLe cats).mem_iff.mp hs

/-- The value of a fuel indicator column `fuel_v` for a non-base schema
category `v`: the indicator of the row's fuel being `v`. -/
lemma featVal_fuelFeat (schema : FeatureSchema) (scOpt : Option Scaler) (r : EncRow)
    (v : List Char) (hv : v ∈ nonbase schema.fuel_categories schema.fuel_base) :
    featVal schema scOpt r (fuelFeatName v) = ind (r.fuel = v) := by
  have key : featVal schema scOpt r (fuelFeatName v) =
      featValCat schema r (fuelFeatName v) := rfl
  have htf : (nonbase schema.type_categories schema.type_base).find?
      (fun w => fuelFeatName v == typeFeatName w) = none := by
    rw [List.find?_eq_none]
    intro w _
    intro hb
    exact head_ne_cons (a := 'f') (b := 't') (by decide) (beq_iff_eq.mp hb)
  have hff : (nonbase schema.fuel_categories schema.fuel_base).find?
      (fun w => fuelFeatName v == fuelFeatName w) = some v := by
    apply find?_unique hv
    · exact beq_iff_eq.mpr rfl
    · intro w _ hw
      have h2 : fuelFeatName v = fuelFeatName w := beq_iff_eq.mp hw
      rw [fuelFeatName, fuelFeatName] at h2
      exact (List.append_cancel_left h2).symm
  rw [key, featValCat, htf, hff]

/-- The value of a type indicator column `type_v` for a non-base schema
category `v`: the indicator of the row's type being `v`. -/
lemma featVal_typeFeat (schema : FeatureSchema) (scOpt : Option Scaler) (r : EncRow)
    (v : List Char) (hv : v ∈ nonbase schema.type_categories schema.type_base) :
    featVal schema scOpt r (typeFeatName v) = ind (r.type = v) := by
  have key : featVal schema scOpt r (typeFeatName v) =
      featValCat schema r (typeFeatName v) := rfl
  have htf : (nonbase schema.type_categories schema.type_base).find?
      (fun w => typeFeatName v == typeFeatName w) = some v := by
    apply find?_unique hv
    · exact beq_iff_eq.mpr rfl
    · intro w _ hw
      have h2 : typeFeatName v = typeFeatName w := beq_iff_eq.mp hw
      rw [typeFeatName, typeFeatName] at h2
      exact (List.append_cancel_left h2).symm
  rw [key, featValCat, htf]

/-! ### Inference encoding structure lemmas -/

lemma encodeInferAux_length (schema : FeatureSchema) (sc : Scaler) (p : UserProfile) :
    ∀ (altId : ℕ) (cands : List Candidate),
      (encodeInferAux schema sc p altId cands).length = cands.length := by
  intro altId cands
  induction cands generalizing altId with
  | nil => rfl
  | cons c rest ih => simp [encodeInferAux, ih]

lemma encodeInferAux_row_length (schema : FeatureSchema) (sc : Scaler) (p : UserProfile) :
    ∀ (altId : ℕ) (cands : List Candidate),
      ∀ row ∈ encodeInferAux schema sc p altId cands,
        row.length = schema.feature_cols.length := by
  intro altId cands
  induction cands generalizing altId with
  | nil => intro row hrow; simp [encodeInferAux] at hrow
  | cons c rest ih =>
    intro row hrow
    rcases List.mem_cons.mp hrow with rfl | h1
    · simp
    · exact ih (altId + 1) row h1

lemma encodeInferAux_get (schema : FeatureSchema) (sc : Scaler) (p : UserProfile) :
    ∀ (altId i : ℕ) (cands : List Candidate) (c : Candidate),
      cands.get? i = some c →
      (encodeInferAux schema sc p altId cands).get? i =
        some (schema.feature_cols.map (featVal schema (some sc) (c.encRow p (altId + i)))) := by
  intro altId i cands
  induction cands generalizing altId i with
  | nil => intro c hc; simp at hc
  | cons d rest ih =>
    intro c hc
    cases i with
    | zero =>
      simp only [List.get?] at hc
      cases hc
      rfl
    | succ j =>
      simp only [List.get?] at hc
      have := ih (altId + 1) j c hc
      simp only [encodeInferAux, List.get?]
      rw [this, Nat.add_assoc, Nat.add_comm 1 j]

lemma npMatVec_none (X : List (List ℝ)) (beta : List ℝ) (r : List ℝ)
    (hr : r ∈ X) (hlen : r.length ≠ beta.length) : npMatVec X beta = none := by
  rw [npMatVec, if_neg]
  intro hall
  exact hlen (beq_iff_eq.mp (List.all_eq_true.mp hall r hr))

/-- An artifact whose coefficient vector length disagrees with its schema
(1 coefficient against 2 feature columns). -/
def mismatchedArtifact : ModelArtifact :=
  { coefficients := [1], feature_names := [], log_likelihood := 0,
    n_observations := 0, n_parameters := 1,
    feature_schema :=
      { type_base := [], fuel_base := [], type_categories := [], fuel_categories := [],
        type_features := [], fuel_features := [], numeric_features := [],
        asc_features := [], interaction_features := [],
        feature_cols := [strL "price", strL "speed"] },
    scaler := { mean := fun _ => 0, scale := fun _ => 1 } }

/-- Counterexample to claim C7 as stated: the repository loads the pickled
artifact with a bare `pickle.load` (train.py lines 656-664) and performs no
schema/coefficient compatibility check anywhere — loading an artifact whose
coefficient vector length differs from its schema `feature_cols` length
SUCCEEDS instead of hard-failing. -/
theorem load_model_no_validation_counterexample :
    mismatchedArtifact.coefficients.length ≠
      mismatchedArtifact.feature_schema.feature_cols.length ∧
    load_model mismatchedArtifact = .ok mismatchedArtifact :=
  ⟨by decide, rfl⟩

/-- Claim C7, amended: loading performs no validation at all (any artifact,
compatible or not, loads successfully); a schema/coefficient length
mismatch instead becomes a hard failure at the FIRST prediction, when
`X @ beta` raises on the dimension mismatch between the matrix encoded to
the schema width and the coefficient vector. -/
theorem artifact_mismatch_fails_at_predict (a : ModelArtifact) :
    load_model a = .ok a ∧
    ∀ (cands : List Candidate) (p : UserProfile),
      a.coefficients.length ≠ a.feature_schema.feature_cols.length →
      cands ≠ [] →
      predict_choice a (encode_for_inference cands a p) = none := by
  refine ⟨rfl, ?_⟩
  intro cands p hmis hne
  cases cands with
  | nil => exact absurd rfl hne
  | cons c rest =>
    have hrow : (a.feature_schema.feature_cols.map
        (featVal a.feature_schema (some a.scaler) (c.encRow p 1))) ∈
        encode_for_inference (c :: rest) a p := by
      rw [encode_for_inference, encodeInferAux]
      exact List.mem_cons_self _ _
    have hlen : (a.feature_schema.feature_cols.map
        (featVal a.feature_schema (some a.scaler) (c.encRow p 1))).length ≠
        a.coefficients.length := by
      rw [List.length_map]
      exact fun hcontra => hmis hcontra.symm
    rw [predict_choice, npMatVec_none _ _ _ hrow hlen]

/-- A benign candidate for the C7 witness. -/
def candGas : Candidate :=
  { type := strL "van", fuel := strL "gasoline",
    price := 1, speed := 1, pollution := 1, size := 1 }

/-- Closed witness for the amended C7, at the concrete mismatched
artifact. -/
theorem artifact_mismatch_fails_at_predict_witness :
    (mismatchedArtifact.coefficients.length ≠
      mismatchedArtifact.feature_schema.feature_cols.length) ∧
    ([candGas] ≠ ([] : List Candidate)) ∧
    load_model mismatchedArtifact = .ok mismatchedArtifact ∧
    predict_choice mismatchedArtifact
      (encode_for_inference [candGas] mismatchedArtifact
        { college := 0, hsg2 := 0, coml5 := 0 }) = none :=
  ⟨by decide, by simp,
    (artifact_mismatch_fails_at_predict mismatchedArtifact).1,
    (artifact_mismatch_fails_at_predict mismatchedArtifact).2 [candGas]
      { college := 0, hsg2 := 0, coml5 := 0 } (by decide) (by simp)⟩

/-- Claim C4: encoding a candidate whose `type` or `fuel` value is not
among the schema category levels raises no error (`encode_for_inference`
is total with a supplied schema) and adds no new column: the output still
has one row per candidate with exactly the schema `feature_cols` width, in
order; every indicator column of the unseen attribute is zero in that
candidate's row; and prediction on the encoded matrix still yields a valid
probability vector. -/
theorem inference_unseen_category_encodes_zero (model : ModelArtifact)
    (p : UserProfile) (cands : List Candidate) (i : ℕ) (c : Candidate)
    (hget : cands.get? i = some c) :
    ((encode_for_inference cands model p).length = cands.length ∧
      ∀ row ∈ encode_for_inference cands model p,
        row.length = model.feature_schema.feature_cols.length) ∧
    (normStr c.fuel ∉ model.feature_schema.fuel_categories →
      ∀ j v, model.feature_schema.feature_cols.get? j = some (fuelFeatName v) →
        v ∈ nonbase model.feature_schema.fuel_categories model.feature_schema.fuel_base →
        ((encode_for_inference cands model p).get? i).bind (fun row => row.get? j) =
          some 0) ∧
    (normStr c.type ∉ model.feature_schema.type_categories →
      ∀ j v, model.feature_schema.feature_cols.get? j = some (typeFeatName v) →
        v ∈ nonbase model.feature_schema.type_categories model.feature_schema.type_base →
        ((encode_for_inference cands model p).get? i).bind (fun row => row.get? j) =
          some 0) ∧
    (model.coefficients.length = model.feature_schema.feature_cols.length →
      ∃ ps, predict_choice model (encode_for_inference cands model p) = some ps ∧
        ps.length = cands.length ∧ (∀ q ∈ ps, 0 ≤ q) ∧ ps.sum = 1) := by
  have hrowi := encodeInferAux_get model.feature_schema model.scaler p 1 i cands c hget
  refine ⟨⟨encodeInferAux_length _ _ _ 1 cands, encodeInferAux_row_length _ _ _ 1 cands⟩,
    ?_, ?_, ?_⟩
  · intro hun j v hj hv
    rw [encode_for_inference, hrowi]
    show ((model.feature_schema.feature_cols.map
        (featVal model.feature_schema (some model.scaler) (c.encRow p (1 + i)))).get? j) =
      some 0
    rw [List.get?_map, hj, Option.map_some']
    have : featVal model.feature_schema (some model.scaler) (c.encRow p (1 + i))
        (fuelFeatName v) = ind ((c.encRow p (1 + i)).fuel = v) :=
      featVal_fuelFeat _ _ _ v hv
    rw [this]
    have hne : (c.encRow p (1 + i)).fuel ≠ v := by
      intro hcontra
      apply hun
      have h3 : normStr c.fuel = v := hcontra
      exact h3 ▸ mem_of_mem_nonbase hv
    rw [ind, if_neg hne]
  · intro hun j v hj hv
    rw [encode_for_inference, hrowi]
    show ((model.feature_schema.feature_cols.map
        (featVal model.feature_schema (some model.scaler) (c.encRow p (1 + i)))).get? j) =
      some 0
    rw [List.get?_map, hj, Option.map_some']
    have : featVal model.feature_schema (some model.scaler) (c.encRow p (1 + i))
        (typeFeatName v) = ind ((c.encRow p (1 + i)).type = v) :=
      featVal_typeFeat _ _ _ v hv
    rw [this]
    have hne : (c.encRow p (1 + i)).type ≠ v := by
      intro hcontra
      apply hun
      have h3 : normStr c.type = v := hcontra
      exact h3 ▸ mem_of_mem_nonbase hv
    rw [ind, if_neg hne]
  · intro hcoef
    have hne : encode_for_inference cands model p ≠ [] := by
      intro hnil
      rw [encode_for_inference] at hnil
      have h0 := encodeInferAux_length model.feature_schema model.scaler p 1 cands
      rw [hnil] at h0
      cases cands with
      | nil => simp at hget
      | cons d rest => simp at h0
    have hlens : ∀ r ∈ encode_for_inference cands model p,
        r.length = model.coefficients.length := by
      intro r hr
      rw [hcoef]
      exact encodeInferAux_row_length _ _ _ 1 cands r hr
    have hXne : (encode_for_inference cands model p).map
        (fun r => dotL r model.coefficients) ≠ [] := by
      simpa using hne
    refine ⟨_, predict_choice_eq model _ hne hlens, ?_, ?_, ?_⟩
    · rw [softmax_length, List.length_map]
      exact encodeInferAux_length _ _ _ 1 cands
    · intro q hq
      exact (softmax_mem_bounds _ hXne q hq).1.le
    · exact softmax_sum _ hXne

/-- A schema over types sedan/suv/van (base van) and fuels
gasoline/hybrid (base gasoline), for the unseen-category witness. -/
def schemaC4 : FeatureSchema :=
  { type_base := strL "van"
    fuel_base := strL "gasoline"
    type_categories := [strL "sedan", strL "suv", strL "van"]
    fuel_categories := [strL "gasoline", strL "hybrid"]
    type_features := [typeFeatName (strL "sedan"), typeFeatName (strL "suv")]
    fuel_features := [fuelFeatName (strL "hybrid")]
    numeric_features := numericNames
    asc_features := ascNames
    interaction_features := interactionNames
    feature_cols := [typeFeatName (strL "sedan"), typeFeatName (strL "suv"),
      fuelFeatName (strL "hybrid")] ++ numericNames ++ ascNames ++ interactionNames }

/-- An artifact over `schemaC4` with one coefficient per feature column. -/
noncomputable def modelC4 : ModelArtifact :=
  { coefficients := List.replicate 15 1, feature_names := schemaC4.feature_cols,
    log_likelihood := 0, n_observations := 0, n_parameters := 15,
    feature_schema := schemaC4, scaler := idScaler }

/-- A candidate whose fuel value `warp` was never seen in training. -/
def candWarp : Candidate :=
  { type := strL "plane", fuel := strL "warp",
    price := 1, speed := 1, pollution := 1, size := 1 }

/-- Closed witness for C4: the candidate with unseen `type` and `fuel` is
encoded with zero indicators and prediction still succeeds. -/
theorem inference_unseen_category_encodes_zero_witness :
    ([candWarp].get? 0 = some candWarp) ∧
    (normStr candWarp.fuel ∉ schemaC4.fuel_categories) ∧
    (normStr candWarp.type ∉ schemaC4.type_categories) ∧
    (modelC4.coefficients.length = schemaC4.feature_cols.length) ∧
    (schemaC4.feature_cols.get? 2 = some (fuelFeatName (strL "hybrid"))) ∧
    (((encode_for_inference [candWarp] modelC4
        { college := 0, hsg2 := 0, coml5 := 0 }).get? 0).bind
      (fun row => row.get? 2) = some 0) ∧
    (∃ ps, predict_choice modelC4
        (encode_for_inference [candWarp] modelC4
          { college := 0, hsg2 := 0, coml5 := 0 }) = some ps ∧
      ps.length = 1 ∧ (∀ q ∈ ps, 0 ≤ q) ∧ ps.sum = 1) := by
  have h := inference_unseen_category_encodes_zero modelC4
    { college := 0, hsg2 := 0, coml5 := 0 } [candWarp] 0 candWarp rfl
  refine ⟨rfl, by decide, by decide, by decide, by decide, ?_, ?_⟩
  · exact h.2.1 (by decide) 2 (strL "hybrid") (by decide) (by decide)
  · exact h.2.2.2 (by decide)

/-! ### prepare_model_data success characterization -/

lemma mapE_ok {α β : Type} (f : α → Except String β) (g : α → β) (l : List α)
    (h : ∀ a ∈ l, f a = .ok (g a)) : mapE f l = .ok (l.map g) := by
  induction l with
  | nil => rfl
  | cons a t ih =>
    have ha := h a (List.mem_cons_self a t)
    have ht := ih (fun b hb => h b (List.mem_cons_of_mem a hb))
    simp only [mapE, ha, ht, Except.bind, bind, pure, Except.pure, List.map_cons]

/-- The per-group choice vector produced by `prepare_model_data`. -/
def groupY (rows : List LongRow) (id : ℕ) : List ℕ :=
  (sortAlt (groupRows rows id)).map (fun r => r.choice)

/-- The per-group feature matrix produced by `prepare_model_data`: rows in
ascending alternative order, columns in exact `feature_cols` order. -/
noncomputable def groupX (rows : List LongRow) (schema : FeatureSchema)
    (scOpt : Option Scaler) (id : ℕ) : List (List ℝ) :=
  (sortAlt (groupRows rows id)).map
    (fun r => schema.feature_cols.map (featVal schema scOpt r.encRow))

lemma groupY_sum (rows : List LongRow) (id : ℕ) :
    (groupY rows id).sum = ((groupRows rows id).map (fun r => r.choice)).sum := by
  exact List.Perm.sum_eq
    (List.Perm.map _ (List.perm_insertionSort altIdLe (groupRows rows id)))

lemma mem_of_mem_sortAlt {g : List LongRow} {r : LongRow} (h : r ∈ sortAlt g) : r ∈ g :=
  (List.perm_insertionSort altIdLe g).mem_iff.mp h

lemma mem_rows_of_mem_groupRows {rows : List LongRow} {id : ℕ} {r : LongRow}
    (h : r ∈ groupRows rows id) : r ∈ rows :=
  (List.mem_filter.mp h).1

/-- When every choice set has exactly one chosen row and no NaN reaches the
feature matrix, `prepare_model_data` succeeds and returns exactly the
per-group choice vectors and sorted, schema-ordered feature matrices. -/
lemma prepare_ok (rows : List LongRow) (schema : FeatureSchema) (scOpt : Option Scaler)
    (hsum : ∀ id ∈ groupIds rows, ((groupRows rows id).map (fun r => r.choice)).sum = 1)
    (hnan : ∀ r ∈ rows, rowHasNanFeature schema r = false) :
    prepare_model_data rows (some schema) scOpt = .ok
      ((groupIds rows).map (groupY rows),
        (groupIds rows).map (groupX rows schema scOpt),
        schema, groupIds rows) := by
  have hstep : ∀ id ∈ groupIds rows,
      prepGroup rows schema scOpt id = .ok (groupY rows id, groupX rows schema scOpt id) := by
    intro id hid
    have h1 : (((sortAlt (groupRows rows id)).map (fun r => r.choice)).sum == 1) = true := by
      have he : ((sortAlt (groupRows rows id)).map (fun r => r.choice)).sum =
          ((groupRows rows id).map (fun r => r.choice)).sum := groupY_sum rows id
      rw [he]
      exact beq_iff_eq.mpr (hsum id hid)
    have h2 : (sortAlt (groupRows rows id)).any (rowHasNanFeature schema) = false := by
      rw [List.any_eq_false]
      intro r hr
      rw [hnan r (mem_rows_of_mem_groupRows (mem_of_mem_sortAlt hr))]
      exact Bool.false_ne_true
    rw [prepGroup]
    simp only [h1, if_true, h2, Bool.false_eq_true, if_false]
    rfl
  have hmap := mapE_ok _ (fun id => (groupY rows id, groupX rows schema scOpt id))
    (groupIds rows) hstep
  simp only [prepare_model_data, Except.bind, bind, pure, Except.pure, hmap]
  simp only [List.map_map]
  rfl

/-- Claim C8: encoding is deterministic — the embedded encoder is a pure
function, so two runs on equal inputs are equal (second conjunct) — and the
output is in canonical form: for every choice set, the matrix rows are the
group rows sorted by ascending alternative position (third conjunct, and
the first conjunct exhibits the matrices as exactly the sorted-row,
`feature_cols`-ordered `groupX` form), with every row carrying exactly the
schema columns in schema order (fourth conjunct). -/
theorem encoding_deterministic_sorted_schema_order (rows : List LongRow)
    (schema : FeatureSchema) (scOpt : Option Scaler)
    (hsum : ∀ id ∈ groupIds rows, ((groupRows rows id).map (fun r => r.choice)).sum = 1)
    (hnan : ∀ r ∈ rows, rowHasNanFeature schema r = false) :
    prepare_model_data rows (some schema) scOpt = .ok
      ((groupIds rows).map (groupY rows),
        (groupIds rows).map (groupX rows schema scOpt),
        schema, groupIds rows) ∧
    (∀ out1 out2, prepare_model_data rows (some schema) scOpt = .ok out1 →
      prepare_model_data rows (some schema) scOpt = .ok out2 → out1 = out2) ∧
    (∀ id ∈ groupIds rows, List.Sorted (fun a b : ℕ => a ≤ b)
      ((sortAlt (groupRows rows id)).map (fun r => r.alternative_id))) ∧
    (∀ X ∈ (groupIds rows).map (groupX rows schema scOpt),
      ∀ row ∈ X, row.length = schema.feature_cols.length) := by
  refine ⟨prepare_ok rows schema scOpt hsum hnan, ?_, ?_, ?_⟩
  · intro out1 out2 h1 h2
    rw [h1] at h2
    exact (Except.ok.injEq ..).mp h2
  · intro id _
    have hs : List.Sorted altIdLe (sortAlt (groupRows rows id)) :=
      List.sorted_insertionSort altIdLe (groupRows rows id)
    exact List.pairwise_map.mpr hs
  · intro X hX row hrow
    rcases List.mem_map.mp hX with ⟨id, _, rfl⟩
    rcases List.mem_map.mp hrow with ⟨r, _, rfl⟩
    exact List.length_map _ _

/-- A fully populated long row, for witnesses. -/
def lrow (id alt choice : ℕ) : LongRow :=
  { choice_set_id := id, alternative_id := alt, choice := choice,
    type := strL "van", fuel := strL "gasoline",
    price := some 1, speed := some 1, pollution := some 1, size := some 1,
    college := some 0, hsg2 := some 0, coml5 := some 0 }

/-- A one-choice-set long table given in DESCENDING alternative order. -/
def rowsC8 : List LongRow := [lrow 0 2 0, lrow 0 1 1]

/-- Closed witness for C8 on a concrete unsorted two-row choice set. -/
theorem encoding_deterministic_sorted_schema_order_witness :
    (∀ id ∈ groupIds rowsC8,
      ((groupRows rowsC8 id).map (fun r => r.choice)).sum = 1) ∧
    (∀ r ∈ rowsC8, rowHasNanFeature schemaC4 r = false) ∧
    (prepare_model_data rowsC8 (some schemaC4) (some idScaler) = .ok
      ((groupIds rowsC8).map (groupY rowsC8),
        (groupIds rowsC8).map (groupX rowsC8 schemaC4 (some idScaler)),
        schemaC4, groupIds rowsC8) ∧
    (∀ out1 out2, prepare_model_data rowsC8 (some schemaC4) (some idScaler) = .ok out1 →
      prepare_model_data rowsC8 (some schemaC4) (some idScaler) = .ok out2 → out1 = out2) ∧
    (∀ id ∈ groupIds rowsC8, List.Sorted (fun a b : ℕ => a ≤ b)
      ((sortAlt (groupRows rowsC8 id)).map (fun r => r.alternative_id))) ∧
    (∀ X ∈ (groupIds rowsC8).map (groupX rowsC8 schemaC4 (some idScaler)),
      ∀ row ∈ X, row.length = schemaC4.feature_cols.length)) :=
  ⟨by decide, by decide,
    encoding_deterministic_sorted_schema_order rowsC8 schemaC4 (some idScaler)
      (by decide) (by decide)⟩

/-! ### The main-pipeline claim -/

lemma rowHasNanFeature_false_of_noNan (schema : FeatureSchema) (r : LongRow)
    (h : rowHasNan r = false) : rowHasNanFeature schema r = false := by
  rw [rowHasNan] at h
  simp only [Bool.or_eq_false_iff] at h
  obtain ⟨⟨⟨⟨⟨⟨hp, hs⟩, hpo⟩, hsi⟩, hc⟩, hh⟩, hco⟩ := h
  simp [rowHasNanFeature, hp, hs, hpo, hsi, hc, hh, hco]

lemma buildSchema_ok (rows : List LongRow)
    (ht : normStr (strL "van") ∈ sortStrs ((rows.map (fun r => normStr r.type)).dedup))
    (hf : normStr (strL "gasoline") ∈
      sortStrs ((rows.map (fun r => normStr r.fuel)).dedup)) :
    ∃ schema, buildSchema rows (strL "van") (strL "gasoline") = .ok schema := by
  simp only [buildSchema]
  rw [if_pos ht, if_pos hf]
  exact ⟨_, rfl⟩

lemma prepare_none_eq (rows : List LongRow) (scOpt : Option Scaler)
    (schema : FeatureSchema)
    (hb : buildSchema rows (strL "van") (strL "gasoline") = .ok schema) :
    prepare_model_data rows none scOpt = prepare_model_data rows (some schema) scOpt := by
  simp only [prepare_model_data, hb, Except.bind, bind, pure, Except.pure]

/-- Claim C5: in the main pipeline the scaler is fit exactly once, on the
training split's raw numeric columns only (the artifact scaler in the
pipeline output is literally `fitScaler (trainSplit ...)`), and every
encoding path — train, validation (and inference, via the same `featVal`)
— computes the interaction feature values from the SCALED numerics: for any
scaler, `hsg2_x_size` is `hsg2 * (size - mean)/scale`, `coml5_x_price` is
`coml5 * (price - mean)/scale`, and `college_x_fuel_electric` multiplies
`college` by the fuel_electric indicator exactly when `fuel_electric` is a
schema fuel feature. -/
theorem scaler_fit_once_on_train_interactions_scaled (rows : List LongRow)
    (trainIds : List ℕ)
    (ht : normStr (strL "van") ∈ sortStrs
      (((trainSplit rows trainIds).map (fun r => normStr r.type)).dedup))
    (hf : normStr (strL "gasoline") ∈ sortStrs
      (((trainSplit rows trainIds).map (fun r => normStr r.fuel)).dedup))
    (hsumT : ∀ id ∈ groupIds (trainSplit rows trainIds),
      ((groupRows (trainSplit rows trainIds) id).map (fun r => r.choice)).sum = 1)
    (hsumV : ∀ id ∈ groupIds (valSplit rows trainIds),
      ((groupRows (valSplit rows trainIds) id).map (fun r => r.choice)).sum = 1)
    (hnan : ∀ r ∈ rows, rowHasNan r = false) :
    ∃ schema yt yv,
      mainPipeline rows trainIds = .ok (schema, fitScaler (trainSplit rows trainIds),
        (yt, (groupIds (trainSplit rows trainIds)).map
          (groupX (trainSplit rows trainIds) schema
            (some (fitScaler (trainSplit rows trainIds))))),
        (yv, (groupIds (valSplit rows trainIds)).map
          (groupX (valSplit rows trainIds) schema
            (some (fitScaler (trainSplit rows trainIds)))))) ∧
      ∀ (sc : Scaler) (r : EncRow),
        featVal schema (some sc) r (strL "hsg2_x_size") =
          r.hsg2 * ((r.size - sc.mean .size) / sc.scale .size) ∧
        featVal schema (some sc) r (strL "coml5_x_price") =
          r.coml5 * ((r.price - sc.mean .price) / sc.scale .price) ∧
        featVal schema (some sc) r (strL "college_x_fuel_electric") =
          (if strL "fuel_electric" ∈ schema.fuel_features then
            r.college * ind (r.fuel = strL "electric")
          else 0) := by
  obtain ⟨schema, hb⟩ := buildSchema_ok (trainSplit rows trainIds) ht hf
  have hnanT : ∀ r ∈ trainSplit rows trainIds, rowHasNanFeature schema r = false :=
    fun r hr => rowHasNanFeature_false_of_noNan schema r
      (hnan r (List.mem_filter.mp hr).1)
  have hnanV : ∀ r ∈ valSplit rows trainIds, rowHasNanFeature schema r = false :=
    fun r hr => rowHasNanFeature_false_of_noNan schema r
      (hnan r (List.mem_filter.mp hr).1)
  have hp1 : prepare_model_data (trainSplit rows trainIds) none none = .ok
      ((groupIds (trainSplit rows trainIds)).map (groupY (trainSplit rows trainIds)),
        (groupIds (trainSplit rows trainIds)).map
          (groupX (trainSplit rows trainIds) schema none),
        schema, groupIds (trainSplit rows trainIds)) :=
    (prepare_none_eq _ none schema hb).trans
      (prepare_ok (trainSplit rows trainIds) schema none hsumT hnanT)
  have hp2 := prepare_ok (trainSplit rows trainIds) schema
    (some (fitScaler (trainSplit rows trainIds))) hsumT hnanT
  have hp3 := prepare_ok (valSplit rows trainIds) schema
    (some (fitScaler (trainSplit rows trainIds))) hsumV hnanV
  refine ⟨schema,
    (groupIds (trainSplit rows trainIds)).map (groupY (trainSplit rows trainIds)),
    (groupIds (valSplit rows trainIds)).map (groupY (valSplit rows trainIds)),
    ?_, ?_⟩
  · simp only [mainPipeline, hp1, hp2, hp3, Except.bind, bind, pure, Except.pure]
  · intro sc r
    exact ⟨rfl, rfl, rfl⟩

/-- A two-choice-set long table: set 0 goes to the train split, set 1 to
the validation split. -/
def rowsC5 : List LongRow := [lrow 0 1 1, lrow 1 1 1]

/-- Closed witness for C5 on a concrete pipeline run. -/
theorem scaler_fit_once_on_train_interactions_scaled_witness :
    (normStr (strL "van") ∈ sortStrs
      (((trainSplit rowsC5 [0]).map (fun r => normStr r.type)).dedup)) ∧
    (∀ r ∈ rowsC5, rowHasNan r = false) ∧
    (∃ schema yt yv,
      mainPipeline rowsC5 [0] = .ok (schema, fitScaler (trainSplit rowsC5 [0]),
        (yt, (groupIds (trainSplit rowsC5 [0])).map
          (groupX (trainSplit rowsC5 [0]) schema (some (fitScaler (trainSplit rowsC5 [0]))))),
        (yv, (groupIds (valSplit rowsC5 [0])).map
          (groupX (valSplit rowsC5 [0]) schema (some (fitScaler (trainSplit rowsC5 [0])))))) ∧
      ∀ (sc : Scaler) (r : EncRow),
        featVal schema (some sc) r (strL "hsg2_x_size") =
          r.hsg2 * ((r.size - sc.mean .size) / sc.scale .size) ∧
        featVal schema (some sc) r (strL "coml5_x_price") =
          r.coml5 * ((r.price - sc.mean .price) / sc.scale .price) ∧
        featVal schema (some sc) r (strL "college_x_fuel_electric") =
          (if strL "fuel_electric" ∈ schema.fuel_features then
            r.college * ind (r.fuel = strL "electric")
          else 0)) :=
  ⟨by decide, by decide,
    scaler_fit_once_on_train_interactions_scaled rowsC5 [0]
      (by decide) (by decide) (by decide) (by decide) (by decide)⟩

/-! ### The evaluator claim -/

lemma npArgmax_c9a : npArgmax [(0.6 : ℝ), 0.3, 0.1] = some 0 := by
  rw [npArgmax]
  rw [argmaxAux, if_neg (by norm_num : ¬ (0.6 : ℝ) < 0.3)]
  rw [argmaxAux, if_neg (by norm_num : ¬ (0.6 : ℝ) < 0.1)]
  rw [argmaxAux]

lemma npArgmax_c9b : npArgmax [(0.2 : ℝ), 0.7, 0.1] = some 1 := by
  rw [npArgmax]
  rw [argmaxAux, if_pos (by norm_num : (0.2 : ℝ) < 0.7)]
  rw [argmaxAux, if_neg (by norm_num : ¬ (0.7 : ℝ) < 0.1)]
  rw [argmaxAux]

/-- Claim C9: `evaluate_model` computes top-1 accuracy as the fraction of
choice sets where the argmax-probability index equals the chosen index,
together with the mean probability of the chosen alternative; on two
3-alternative choice sets predicted `[0.6, 0.3, 0.1]` (chosen index 0) and
`[0.2, 0.7, 0.1]` (chosen index 1) it returns accuracy 1.0 and average
chosen probability 0.65. -/
theorem evaluator_accuracy_and_mean_chosen_prob (m : ModelArtifact)
    (X1 X2 : List (List ℝ))
    (h1 : predict_choice m X1 = some [0.6, 0.3, 0.1])
    (h2 : predict_choice m X2 = some [0.2, 0.7, 0.1]) :
    evaluate_model m [[1, 0, 0], [0, 1, 0]] [X1, X2] = some (1, 0.65) := by
  have hf1 : ([1, 0, 0] : List ℕ).findIdx? (fun c => c == 1) = some 0 := by decide
  have hf2 : ([0, 1, 0] : List ℕ).findIdx? (fun c => c == 1) = some 1 := by decide
  have hstep1 : evalStep m ([1, 0, 0], X1) = some (true, 0.6) := by
    simp only [evalStep, h1, npArgmax_c9a, hf1, bind, Option.bind, pure, List.get?]
    rfl
  have hstep2 : evalStep m ([0, 1, 0], X2) = some (true, 0.7) := by
    simp only [evalStep, h2, npArgmax_c9b, hf2, bind, Option.bind, pure, List.get?]
    rfl
  have hmap : mapO (evalStep m) ([[1, 0, 0], [0, 1, 0]].zip [X1, X2]) =
      some [(true, 0.6), (true, 0.7)] := by
    simp only [List.zip, List.zipWith, mapO, hstep1, hstep2, bind, Option.bind, pure]
  rw [evaluate_model]
  simp only [hmap, bind, Option.bind]
  norm_num [List.countP, List.countP.go]

/-- Closed witness for C9: utilities `log p` reproduce the probabilities
`p` exactly, since they sum to 1. -/
lemma predict_log_triple (m : ModelArtifact) (hm : m.coefficients = [1])
    (a b c : ℝ) (ha : 0 < a) (hb : 0 < b) (hc : 0 < c)
    (hba : b ≤ a) (hca : c ≤ a) (hsum : a + b + c = 1) :
    predict_choice m [[Real.log a], [Real.log b], [Real.log c]] = some [a, b, c] := by
  have hrows : ∀ r ∈ [[Real.log a], [Real.log b], [Real.log c]],
      r.length = m.coefficients.length := by
    rw [hm]
    intro r hr
    rcases List.mem_cons.mp hr with rfl | hr2
    · rfl
    rcases List.mem_cons.mp hr2 with rfl | hr3
    · rfl
    rcases List.mem_cons.mp hr3 with rfl | hr4
    · rfl
    · simp at hr4
  rw [predict_choice_eq m _ (by simp) hrows, hm]
  have hdot : ([[Real.log a], [Real.log b], [Real.log c]].map
      (fun r => dotL r [1])) = [Real.log a, Real.log b, Real.log c] := by
    simp [dotL]
  rw [hdot]
  have hmax : listMax [Real.log a, Real.log b, Real.log c] = Real.log a := by
    rw [listMax]
    simp only [List.foldl]
    rw [max_eq_left (Real.log_le_log hb hba), max_eq_left (Real.log_le_log hc hca)]
  rw [softmaxProbs, hmax]
  have he1 : Real.exp (Real.log a - Real.log a) = 1 := by
    rw [sub_self, Real.exp_zero]
  have he2 : Real.exp (Real.log b - Real.log a) = b / a := by
    rw [Real.exp_sub, Real.exp_log hb, Real.exp_log ha]
  have he3 : Real.exp (Real.log c - Real.log a) = c / a := by
    rw [Real.exp_sub, Real.exp_log hc, Real.exp_log ha]
  simp only [List.map_cons, List.map_nil, he1, he2, he3, List.sum_cons, List.sum_nil]
  have hS : (1 : ℝ) + (b / a + (c / a + 0)) = 1 / a := by
    field_simp
    linarith [hsum]
  rw [hS]
  have ha' : a ≠ 0 := ne_of_gt ha
  simp only [Option.some.injEq, List.cons.injEq, and_true]
  refine ⟨by rw [one_div_one_div], ?_, ?_⟩
  · field_simp
  · field_simp

/-- As `predict_log_triple`, for a triple whose maximum is the middle
entry. -/
lemma predict_log_triple_mid (m : ModelArtifact) (hm : m.coefficients = [1])
    (a b c : ℝ) (ha : 0 < a) (hb : 0 < b) (hc : 0 < c)
    (hab : a ≤ b) (hcb : c ≤ b) (hsum : a + b + c = 1) :
    predict_choice m [[Real.log a], [Real.log b], [Real.log c]] = some [a, b, c] := by
  have hrows : ∀ r ∈ [[Real.log a], [Real.log b], [Real.log c]],
      r.length = m.coefficients.length := by
    rw [hm]
    intro r hr
    rcases List.mem_cons.mp hr with rfl | hr2
    · rfl
    rcases List.mem_cons.mp hr2 with rfl | hr3
    · rfl
    rcases List.mem_cons.mp hr3 with rfl | hr4
    · rfl
    · simp at hr4
  rw [predict_choice_eq m _ (by simp) hrows, hm]
  have hdot : ([[Real.log a], [Real.log b], [Real.log c]].map
      (fun r => dotL r [1])) = [Real.log a, Real.log b, Real.log c] := by
    simp [dotL]
  rw [hdot]
  have hmax : listMax [Real.log a, Real.log b, Real.log c] = Real.log b := by
    rw [listMax]
    simp only [List.foldl]
    rw [max_eq_right (Real.log_le_log ha hab), max_eq_left (Real.log_le_log hc hcb)]
  rw [softmaxProbs, hmax]
  have he1 : Real.exp (Real.log a - Real.log b) = a / b := by
    rw [Real.exp_sub, Real.exp_log ha, Real.exp_log hb]
  have he2 : Real.exp (Real.log b - Real.log b) = 1 := by
    rw [sub_self, Real.exp_zero]
  have he3 : Real.exp (Real.log c - Real.log b) = c / b := by
    rw [Real.exp_sub, Real.exp_log hc, Real.exp_log hb]
  simp only [List.map_cons, List.map_nil, he1, he2, he3, List.sum_cons, List.sum_nil]
  have hS : (a / b : ℝ) + (1 + (c / b + 0)) = 1 / b := by
    field_simp
    linarith [hsum]
  rw [hS]
  have hb' : b ≠ 0 := ne_of_gt hb
  simp only [Option.some.injEq, List.cons.injEq, and_true]
  refine ⟨?_, by rw [one_div_one_div], ?_⟩
  · field_simp
  · field_simp

theorem evaluator_accuracy_and_mean_chosen_prob_witness :
    predict_choice (artifactWith [1])
        [[Real.log 0.6], [Real.log 0.3], [Real.log 0.1]] = some [0.6, 0.3, 0.1] ∧
    predict_choice (artifactWith [1])
        [[Real.log 0.2], [Real.log 0.7], [Real.log 0.1]] = some [0.2, 0.7, 0.1] ∧
    evaluate_model (artifactWith [1]) [[1, 0, 0], [0, 1, 0]]
      [[[Real.log 0.6], [Real.log 0.3], [Real.log 0.1]],
        [[Real.log 0.2], [Real.log 0.7], [Real.log 0.1]]] = some (1, 0.65) := by
  have hp1 : predict_choice (artifactWith [1])
      [[Real.log 0.6], [Real.log 0.3], [Real.log 0.1]] = some [0.6, 0.3, 0.1] :=
    predict_log_triple (artifactWith [1]) rfl 0.6 0.3 0.1 (by norm_num) (by norm_num)
      (by norm_num) (by norm_num) (by norm_num) (by norm_num)
  have hp2 : predict_choice (artifactWith [1])
      [[Real.log 0.2], [Real.log 0.7], [Real.log 0.1]] = some [0.2, 0.7, 0.1] :=
    predict_log_triple_mid (artifactWith [1]) rfl 0.2 0.7 0.1 (by norm_num) (by norm_num)
      (by norm_num) (by norm_num) (by norm_num) (by norm_num)
  exact ⟨hp1, hp2, evaluator_accuracy_and_mean_chosen_prob (artifactWith [1]) _ _ hp1 hp2⟩

end Train




